import Mathlib

/-!
Verification of the kids-chess rules engine (src/main.js).

The engine is embedded shallowly:
* square identifiers (JS strings such as `"A3"`) are `List Char`;
* a JS `Map` board is its entry list `List (Sq × Piece)` in insertion order,
  with `Map.get` / `Map.set` / `Map.delete` modelled by `mapGet` / `mapSet` /
  `mapDelete`, and `Map.entries()` iteration being the list itself;
* the process-wide mutable `FILES` / `RANKS` configuration is an explicit
  `Cfg` argument (`cfg4` / `cfg5` as installed by `setBoardSize`);
* `Math.random`-driven choices are an explicit supply of natural numbers,
  one per `randomInt` call (the claims proved here are all
  for-every-random-outcome properties, never distributional ones);
* the unbounded `while (true)` ray walks, which the source terminates by
  stepping off the board, are given explicit fuel `rayFuel`, proved
  sufficient below (`outward_stable`, `outward_len_lt_*`).
-/

namespace KidsChess

/-- ASCII model of `String.prototype.toLowerCase`: the engine's entire
vocabulary (piece letters, color letters, square names) is ASCII. -/
def charLower (c : Char) : Char :=
  match c with
  | 'A' => 'a' | 'B' => 'b' | 'C' => 'c' | 'D' => 'd' | 'E' => 'e' | 'F' => 'f'
  | 'G' => 'g' | 'H' => 'h' | 'I' => 'i' | 'J' => 'j' | 'K' => 'k' | 'L' => 'l'
  | 'M' => 'm' | 'N' => 'n' | 'O' => 'o' | 'P' => 'p' | 'Q' => 'q' | 'R' => 'r'
  | 'S' => 's' | 'T' => 't' | 'U' => 'u' | 'V' => 'v' | 'W' => 'w' | 'X' => 'x'
  | 'Y' => 'y' | 'Z' => 'z'
  | other => other

/-- ASCII model of `String.prototype.toUpperCase`. -/
def charUpper (c : Char) : Char :=
  match c with
  | 'a' => 'A' | 'b' => 'B' | 'c' => 'C' | 'd' => 'D' | 'e' => 'E' | 'f' => 'F'
  | 'g' => 'G' | 'h' => 'H' | 'i' => 'I' | 'j' => 'J' | 'k' => 'K' | 'l' => 'L'
  | 'm' => 'M' | 'n' => 'N' | 'o' => 'O' | 'p' => 'P' | 'q' => 'Q' | 'r' => 'R'
  | 's' => 'S' | 't' => 'T' | 'u' => 'U' | 'v' => 'V' | 'w' => 'W' | 'x' => 'X'
  | 'y' => 'Y' | 'z' => 'Z'
  | other => other

/-- `String.prototype.trim` on the character list. -/
def trimList (s : List Char) : List Char :=
  ((s.dropWhile Char.isWhitespace).reverse.dropWhile Char.isWhitespace).reverse

/-- Decimal digit-string value; models `Number(...)` on the rank substring.
`Number` yields `NaN` on non-numeric text, and that `NaN` always fails the
subsequent `RANKS.includes` test, exactly as `none` fails here.  Exotic
spellings that `Number` also accepts (inner whitespace, signs, a trailing
`.0`) are not modelled; no call site in the program produces them — every
square text reaching `parseSquare` is a file letter followed by bare decimal
digits. -/
def digitsVal? (l : List Char) : Option Int :=
  if l ≠ [] ∧ l.all Char.isDigit then
    some (Int.ofNat (l.foldl (fun acc c => acc * 10 + (c.toNat - 48)) 0))
  else none

/-- Decimal rendering of an integer, as JS template interpolation `${r}`. -/
def intToChars (n : Int) : List Char :=
  if n < 0 then '-' :: Nat.toDigits 10 n.natAbs else Nat.toDigits 10 n.toNat

/-- A square identifier: the character list of the JS string (e.g. `A3`). -/
abbrev Sq := List Char

/-- A piece object `{ type, color }`; both fields are JS strings. -/
structure Piece where
  type : List Char
  color : List Char
deriving DecidableEq, Repr

/-- The `FILES` / `RANKS` tables selected by `setBoardSize`. -/
structure Cfg where
  files : List Char
  ranks : List Int
deriving DecidableEq, Repr

/-- `BOARD_SIZES[4]`. -/
def cfg4 : Cfg := ⟨['A', 'B', 'C', 'D'], [1, 2, 3, 4]⟩

/-- `BOARD_SIZES[5]`. -/
def cfg5 : Cfg := ⟨['A', 'B', 'C', 'D', 'E'], [1, 2, 3, 4, 5]⟩

/-- Canonical piece-type token `"k"`. -/
def tK : List Char := ['k']

/-- Canonical piece-type token `"q"`. -/
def tQ : List Char := ['q']

/-- Canonical piece-type token `"r"`. -/
def tR : List Char := ['r']

/-- Canonical piece-type token `"b"`. -/
def tB : List Char := ['b']

/-- Canonical piece-type token `"n"`. -/
def tN : List Char := ['n']

/-- Canonical color token `"w"`. -/
def cW : List Char := ['w']

/-- Canonical color token `"b"`. -/
def cB : List Char := ['b']

/-- The word `"king"`. -/
def kingStr : List Char := ['k', 'i', 'n', 'g']

/-- The word `"queen"`. -/
def queenStr : List Char := ['q', 'u', 'e', 'e', 'n']

/-- The word `"rook"`. -/
def rookStr : List Char := ['r', 'o', 'o', 'k']

/-- The word `"bishop"`. -/
def bishopStr : List Char := ['b', 'i', 's', 'h', 'o', 'p']

/-- The word `"knight"`. -/
def knightStr : List Char := ['k', 'n', 'i', 'g', 'h', 't']

/-- The word `"white"`. -/
def whiteStr : List Char := ['w', 'h', 'i', 't', 'e']

/-- The word `"black"`. -/
def blackStr : List Char := ['b', 'l', 'a', 'c', 'k']

/-- The result object of `parseSquare`. -/
structure ParsedSq where
  file : Char
  rank : Int
  fileIndex : Nat
deriving DecidableEq, Repr

/-- `parseSquare(square)` of src/main.js. -/
def parseSquare (cfg : Cfg) (square : Sq) : Option ParsedSq :=
  let s := (trimList square).map charUpper
  match s with
  | f :: r0 :: rest =>
    if f ∈ cfg.files then
      match digitsVal? (r0 :: rest) with
      | none => none
      | some rank =>
        if rank ∈ cfg.ranks then some ⟨f, rank, cfg.files.indexOf f⟩ else none
    else none
  | _ => none

/-- `toSquare(fileIndex, rank)` of src/main.js. -/
def toSquare (cfg : Cfg) (fileIndex rank : Int) : Option Sq :=
  if fileIndex < 0 ∨ (cfg.files.length : Int) ≤ fileIndex then none
  else if rank ∈ cfg.ranks then
    some (cfg.files.getD fileIndex.toNat 'A' :: intToChars rank)
  else none

/-- `squaresAreAdjacent(a, b)` of src/main.js: Chebyshev distance exactly 1. -/
def squaresAreAdjacent (cfg : Cfg) (a b : Sq) : Bool :=
  match parseSquare cfg a, parseSquare cfg b with
  | some sa, some sb =>
    max ((sa.fileIndex : Int) - (sb.fileIndex : Int)).natAbs
        (sa.rank - sb.rank).natAbs == 1
  | _, _ => false

/-- `allSquares()` of src/main.js.  Note that the loop bounds are the literal
constants `4`, not `RANKS.length` / `FILES.length`. -/
def allSquares (cfg : Cfg) : List Sq :=
  (List.range 4).flatMap fun ri =>
    (List.range 4).map fun fi => cfg.files.getD fi 'A' :: intToChars ((ri : Int) + 1)

/-- A board: the entry list of the JS `Map`, in insertion order. -/
abbrev Board := List (Sq × Piece)

/-- `Map.prototype.get`. -/
def mapGet (b : Board) (sq : Sq) : Option Piece :=
  (b.find? fun e => e.1 == sq).map Prod.snd

/-- `Map.prototype.set`: overwrites in place if the key is present
(keeping its position in iteration order), appends otherwise. -/
def mapSet (b : Board) (sq : Sq) (p : Piece) : Board :=
  if b.any (fun e => e.1 == sq) then
    b.map fun e => if e.1 == sq then (sq, p) else e
  else b ++ [(sq, p)]

/-- `Map.prototype.delete` (at most one entry per key can match). -/
def mapDelete (b : Board) (sq : Sq) : Board :=
  b.filter fun e => !(e.1 == sq)

/-- `cloneBoard(board)`: fresh `Map` with a spread-copy of every entry. -/
def cloneBoard (b : Board) : Board :=
  b.map fun e => (e.1, { type := e.2.type, color := e.2.color })

/-- A JS `Map` never holds two entries with the same key; boards built by the
program always satisfy this. -/
def WFBoard (b : Board) : Prop := (b.map Prod.fst).Nodup

instance decWFBoard (b : Board) : Decidable (WFBoard b) :=
  inferInstanceAs (Decidable ((b.map Prod.fst).Nodup))

/-- `pieceName(type)` of src/main.js. -/
def pieceName (type : List Char) : List Char :=
  let t := type.map charLower
  if t == tK ∨ t == kingStr then kingStr
  else if t == tQ ∨ t == queenStr then queenStr
  else if t == tR ∨ t == rookStr then rookStr
  else if t == tB ∨ t == bishopStr then bishopStr
  else if t == tN ∨ t == knightStr then knightStr
  else t

/-- `normalizePieceType(type)` of src/main.js. -/
def normalizePieceType (type : List Char) : List Char :=
  let t := pieceName type
  if t == kingStr then tK
  else if t == queenStr then tQ
  else if t == rookStr then tR
  else if t == bishopStr then tB
  else if t == knightStr then tN
  else t

/-- `normalizeColor(color)` of src/main.js. -/
def normalizeColor (color : List Char) : List Char :=
  let c := (trimList color).map charLower
  if c == cW ∨ c == whiteStr then cW
  else if c == cB ∨ c == blackStr then cB
  else c

/-- `oppositeColor(color)` of src/main.js. -/
def oppositeColor (color : List Char) : List Char :=
  let c := normalizeColor color
  if c == cW then cB else if c == cB then cW else c

/-- The `wk` (resp. `bk`) assignment loop inside `kingsAreSeparated`: the last
entry holding a king of color `c` wins, `none` if there is none. -/
def scanKing (c : List Char) (b : Board) : Option Sq :=
  b.foldl (fun acc e => if e.2.type == tK && e.2.color == c then some e.1 else acc) none

/-- `kingsAreSeparated(board)` of src/main.js; the single source loop tracks
`wk` and `bk` simultaneously, modelled as the two identical scans. -/
def kingsAreSeparated (cfg : Cfg) (b : Board) : Bool :=
  match scanKing cW b, scanKing cB b with
  | some wk, some bk => !squaresAreAdjacent cfg wk bk
  | _, _ => false

/-- `applyMove(board, from, to)` of src/main.js: clone, delete `from`, set
`to`.  This total version is only meaningful when `from` holds a piece, as
in the program's every call and in every claim hypothesis that uses it; the
empty-`from` path, where the JS code stores `undefined` at `to` and the next
`entries()` consumer throws a TypeError, is modelled faithfully by
`applyMoveU` / `getLegalMovesE` below. -/
def applyMove (b : Board) (src dst : Sq) : Board :=
  let next := cloneBoard b
  match mapGet next src with
  | some piece => mapSet (mapDelete next src) dst piece
  | none => mapDelete next src

/-- Fuel bound for the source's `while (true)` ray walks; shown sufficient in
`outward_stable` / `outward_len_lt_4` / `outward_len_lt_5`. -/
def rayFuel (cfg : Cfg) : Nat := cfg.files.length + cfg.ranks.length

/-- The square sequence a ray walk visits, ignoring occupancy: step from
`(fi, r)` by `(df, dr)` until `toSquare` fails at the board edge. -/
def outwardAux (cfg : Cfg) (df dr : Int) : Int → Int → Nat → List Sq
  | _, _, 0 => []
  | fi, r, fuel + 1 =>
    match toSquare cfg fi r with
    | none => []
    | some sq => sq :: outwardAux cfg df dr (fi + df) (r + dr) fuel

/-- The full outward square sequence of a ray, from the parsed origin `s`
exclusive to the board edge. -/
def outwardRay (cfg : Cfg) (s : ParsedSq) (df dr : Int) : List Sq :=
  outwardAux cfg df dr ((s.fileIndex : Int) + df) (s.rank + dr) (rayFuel cfg)

/-- The `while (true)` loop body of `rayAttacks`: push each square, and stop
after pushing the first occupied one (whatever its color). -/
def rayAttacksAux (cfg : Cfg) (b : Board) (df dr : Int) : Int → Int → Nat → List Sq
  | _, _, 0 => []
  | fi, r, fuel + 1 =>
    match toSquare cfg fi r with
    | none => []
    | some sq =>
      match mapGet b sq with
      | some _ => [sq]
      | none => sq :: rayAttacksAux cfg b df dr (fi + df) (r + dr) fuel

/-- `rayAttacks(from, df, dr, board, attackerColor)` of src/main.js; the
`attackerColor` parameter is unused in the source as well. -/
def rayAttacks (cfg : Cfg) (fromSq : Sq) (df dr : Int) (b : Board)
    (attackerColor : List Char) : List Sq :=
  match parseSquare cfg fromSq with
  | none => []
  | some s => rayAttacksAux cfg b df dr ((s.fileIndex : Int) + df) (s.rank + dr) (rayFuel cfg)

/-- The keep-condition of `addIfOk` in `pseudoMovesForPiece`: empty square, or
occupied by a piece whose color differs from the mover's color `c`. -/
def okDest (b : Board) (c : List Char) (sq : Sq) : Bool :=
  match mapGet b sq with
  | none => true
  | some occ => !(occ.color == c)

/-- The `ray` closure's loop in `pseudoMovesForPiece`: `addIfOk` pushes an
empty square and keeps going, pushes an enemy-occupied square and stops, and
stops without pushing on a same-color occupant. -/
def moveRayAux (cfg : Cfg) (b : Board) (c : List Char) (df dr : Int) :
    Int → Int → Nat → List Sq
  | _, _, 0 => []
  | fi, r, fuel + 1 =>
    match toSquare cfg fi r with
    | none => []
    | some sq =>
      match mapGet b sq with
      | none => sq :: moveRayAux cfg b c df dr (fi + df) (r + dr) fuel
      | some occ => if occ.color == c then [] else [sq]

/-- The `ray(df, dr)` closure of `pseudoMovesForPiece`. -/
def rayMoves (cfg : Cfg) (b : Board) (c : List Char) (fromSq : Sq) (df dr : Int) : List Sq :=
  match parseSquare cfg fromSq with
  | none => []
  | some s => moveRayAux cfg b c df dr ((s.fileIndex : Int) + df) (s.rank + dr) (rayFuel cfg)

/-- The knight's eight deltas, in source order. -/
def knightDeltas : List (Int × Int) :=
  [(1, 2), (2, 1), (-1, 2), (-2, 1), (1, -2), (2, -1), (-1, -2), (-2, -1)]

/-- `knightTargets(from)` of src/main.js. -/
def knightTargets (cfg : Cfg) (fromSq : Sq) : List Sq :=
  match parseSquare cfg fromSq with
  | none => []
  | some s => knightDeltas.filterMap fun d =>
      toSquare cfg ((s.fileIndex : Int) + d.1) (s.rank + d.2)

/-- The king's eight deltas, in the order of the source's nested loops
(`df` outer from -1 to 1, `dr` inner, skipping `(0, 0)`). -/
def kingDeltas : List (Int × Int) :=
  [(-1, -1), (-1, 0), (-1, 1), (0, -1), (0, 1), (1, -1), (1, 0), (1, 1)]

/-- `kingTargets(from)` of src/main.js. -/
def kingTargets (cfg : Cfg) (fromSq : Sq) : List Sq :=
  match parseSquare cfg fromSq with
  | none => []
  | some s => kingDeltas.filterMap fun d =>
      toSquare cfg ((s.fileIndex : Int) + d.1) (s.rank + d.2)

/-- `pseudoMovesForPiece(piece, from, board)` of src/main.js.  For the king
and the knight the `addIfOk` loop is exactly a filter (its return value is
unused); the sliding blocks push four rays each onto `moves` in source
order. -/
def pseudoMovesForPiece (cfg : Cfg) (piece : Piece) (fromSq : Sq) (b : Board) : List Sq :=
  let t := normalizePieceType piece.type
  let c := normalizeColor piece.color
  if t == tK then (kingTargets cfg fromSq).filter (okDest b c)
  else if t == tN then (knightTargets cfg fromSq).filter (okDest b c)
  else
    (if t == tR || t == tQ then
      rayMoves cfg b c fromSq 1 0 ++ rayMoves cfg b c fromSq (-1) 0 ++
      rayMoves cfg b c fromSq 0 1 ++ rayMoves cfg b c fromSq 0 (-1)
    else []) ++
    (if t == tB || t == tQ then
      rayMoves cfg b c fromSq 1 1 ++ rayMoves cfg b c fromSq (-1) 1 ++
      rayMoves cfg b c fromSq 1 (-1) ++ rayMoves cfg b c fromSq (-1) (-1)
    else [])

/-- `attacksFromSquare(square, piece, board)` of src/main.js.  The queen case
inlines the source's two recursive calls (same square and board, type
replaced by `"r"` and `"b"`). -/
def attacksFromSquare (cfg : Cfg) (square : Sq) (piece : Piece) (b : Board) : List Sq :=
  let t := normalizePieceType piece.type
  if t == tK then kingTargets cfg square
  else if t == tN then knightTargets cfg square
  else if t == tR then
    rayAttacks cfg square 1 0 b piece.color ++ rayAttacks cfg square (-1) 0 b piece.color ++
    rayAttacks cfg square 0 1 b piece.color ++ rayAttacks cfg square 0 (-1) b piece.color
  else if t == tB then
    rayAttacks cfg square 1 1 b piece.color ++ rayAttacks cfg square (-1) 1 b piece.color ++
    rayAttacks cfg square 1 (-1) b piece.color ++ rayAttacks cfg square (-1) (-1) b piece.color
  else if t == tQ then
    (rayAttacks cfg square 1 0 b piece.color ++ rayAttacks cfg square (-1) 0 b piece.color ++
     rayAttacks cfg square 0 1 b piece.color ++ rayAttacks cfg square 0 (-1) b piece.color) ++
    (rayAttacks cfg square 1 1 b piece.color ++ rayAttacks cfg square (-1) 1 b piece.color ++
     rayAttacks cfg square 1 (-1) b piece.color ++ rayAttacks cfg square (-1) (-1) b piece.color)
  else []

/-- `isSquareAttacked(square, byColor, board)` of src/main.js. -/
def isSquareAttacked (cfg : Cfg) (square : Sq) (byColor : List Char) (b : Board) : Bool :=
  let attacker := normalizeColor byColor
  b.any fun e => e.2.color == attacker && (attacksFromSquare cfg e.1 e.2 b).contains square

/-- `isCheck(color, board)` of src/main.js; the inline king scan returns the
first matching entry. -/
def isCheck (cfg : Cfg) (color : List Char) (b : Board) : Bool :=
  let c := normalizeColor color
  match b.find? (fun e => e.2.type == tK && e.2.color == c) with
  | none => false
  | some e => isSquareAttacked cfg e.1 (oppositeColor c) b

/-- `getLegalMoves(piece, from, board)` of src/main.js: pseudo-legal
candidates, filtered by the three simulated-board rejections. -/
def getLegalMoves (cfg : Cfg) (piece : Piece) (fromSq : Sq) (b : Board) : List Sq :=
  let p : Piece := ⟨normalizePieceType piece.type, normalizeColor piece.color⟩
  (pseudoMovesForPiece cfg p fromSq b).filter fun dst =>
    let nb := applyMove b fromSq dst
    kingsAreSeparated cfg nb && !isCheck cfg p.color nb &&
      (!(p.type == tK) || !isSquareAttacked cfg dst (oppositeColor p.color) nb)

/-- `allLegalMoves(color, board)` of src/main.js; entries are
`(from, to, piece)` triples. -/
def allLegalMoves (cfg : Cfg) (color : List Char) (b : Board) : List (Sq × Sq × Piece) :=
  let c := normalizeColor color
  b.flatMap fun e =>
    if e.2.color == c then (getLegalMoves cfg e.2 e.1 b).map fun dst => (e.1, dst, e.2)
    else []

/-- `isCheckmate(color, board)` of src/main.js. -/
def isCheckmate (cfg : Cfg) (color : List Char) (b : Board) : Bool :=
  let c := normalizeColor color
  if isCheck cfg c b then (allLegalMoves cfg c b).length == 0 else false

/-- `isStalemate(color, board)` of src/main.js. -/
def isStalemate (cfg : Cfg) (color : List Char) (b : Board) : Bool :=
  let c := normalizeColor color
  if isCheck cfg c b then false else (allLegalMoves cfg c b).length == 0

/-- A JS `Map` entry list whose values may be `undefined` (`none`):
`applyMove` calls `next.set(to, piece)` without checking `piece`, so an empty
source square stores an `undefined`-valued entry. -/
abbrev BoardU := List (Sq × Option Piece)

/-- A board all of whose values are defined, as an undefined-able map. -/
def toBoardU (b : Board) : BoardU := b.map fun e => (e.1, some e.2)

/-- `Map.prototype.get` on the undefined-able map; JS `get` yields
`undefined` both for a missing key and for a key mapped to `undefined`. -/
def mapGetU (b : BoardU) (sq : Sq) : Option Piece :=
  match b.find? fun e => e.1 == sq with
  | none => none
  | some e => e.2

/-- `Map.prototype.set` on the undefined-able map (same overwrite-in-place /
append semantics as `mapSet`). -/
def mapSetU (b : BoardU) (sq : Sq) (p : Option Piece) : BoardU :=
  if b.any (fun e => e.1 == sq) then
    b.map fun e => if e.1 == sq then (sq, p) else e
  else b ++ [(sq, p)]

/-- `Map.prototype.delete` on the undefined-able map. -/
def mapDeleteU (b : BoardU) (sq : Sq) : BoardU :=
  b.filter fun e => !(e.1 == sq)

/-- The entry list as a plain board when every value is defined; `none` when
some entry holds `undefined`, in which case any `entries()` loop that
dereferences `p.type` or `p.color` (as `kingsAreSeparated`, `isCheck` and
`isSquareAttacked` all do on their first entry access) throws a TypeError. -/
def definedBoard? (b : BoardU) : Option Board :=
  if b.any (fun e => e.2.isNone) then none
  else some (b.filterMap fun e => e.2.map fun p => (e.1, p))

/-- `applyMove(board, from, to)` of src/main.js on the value-faithful map:
`piece` is whatever `next.get(from)` yields, `undefined` included, and is
stored at `to` unconditionally, exactly as in the source's three statements. -/
def applyMoveU (b : Board) (src dst : Sq) : BoardU :=
  let next := toBoardU (cloneBoard b)
  mapSetU (mapDeleteU next src) dst (mapGetU next src)

/-- The candidate loop of `getLegalMoves` with the error path modelled: each
iteration simulates on the value-faithful map and first runs
`kingsAreSeparated`, whose entry loop throws a TypeError on an
`undefined`-valued entry — the exception aborts the whole call (`none`).
When the simulated map is fully defined the three rejection tests run on the
equivalent plain board and the accumulator grows exactly as in the source. -/
def legalLoopE (cfg : Cfg) (b : Board) (p : Piece) (fromSq : Sq) :
    List Sq → List Sq → Option (List Sq)
  | acc, [] => some acc
  | acc, dst :: rest =>
    match definedBoard? (applyMoveU b fromSq dst) with
    | none => none
    | some nb =>
      if kingsAreSeparated cfg nb && !isCheck cfg p.color nb &&
          (!(p.type == tK) || !isSquareAttacked cfg dst (oppositeColor p.color) nb)
      then legalLoopE cfg b p fromSq (acc ++ [dst]) rest
      else legalLoopE cfg b p fromSq acc rest

/-- The Legality Filter's acceptance test on the simulated board: the
conjunction of the three rejection tests of `getLegalMoves`. -/
def legalPred (cfg : Cfg) (b : Board) (p : Piece) (fromSq dst : Sq) : Bool :=
  kingsAreSeparated cfg (applyMove b fromSq dst) &&
    !isCheck cfg p.color (applyMove b fromSq dst) &&
    (!(p.type == tK) || !isSquareAttacked cfg dst (oppositeColor p.color)
      (applyMove b fromSq dst))

/-- `getLegalMoves(piece, from, board)` of src/main.js with the thrown
TypeError modelled as `none`: for a piece argument at an occupied square this
returns `some` of `getLegalMoves` (proved in `getLegalMovesE_occupied`); for
an empty source square with a non-empty candidate list the first simulation
poisons the board and the call aborts. -/
def getLegalMovesE (cfg : Cfg) (piece : Piece) (fromSq : Sq) (b : Board) :
    Option (List Sq) :=
  let p : Piece := ⟨normalizePieceType piece.type, normalizeColor piece.color⟩
  legalLoopE cfg b p fromSq [] (pseudoMovesForPiece cfg p fromSq b)

/-- `pickRandom(arr)`: `arr[randomInt(arr.length)]`, with the random draw
modelled as an arbitrary supplied natural `v` reduced modulo the length
(`randomInt` always yields an in-range index; every call site has a
non-empty array). -/
def pickRandom (arr : List Sq) (v : Nat) : Sq := arr.getD (v % arr.length) []

/-- The additional-piece placement loop of `generateStartingPosition`;
`g i` is the random draw of call number `i` within the attempt. -/
def placePieces (cfg : Cfg) (g : Nat → Nat) :
    Board → List Sq → List Piece → Nat → Option Board
  | board, _, [], _ => some board
  | board, available, up :: rest, i =>
    if available.length = 0 then none
    else
      let sq := pickRandom available (g i)
      placePieces cfg g
        (mapSet board sq ⟨normalizePieceType up.type, normalizeColor up.color⟩)
        (available.erase sq) rest (i + 1)

/-- One iteration of the attempt loop of `generateStartingPosition`;
`g` supplies that attempt's random draws in call order. -/
def genAttempt (cfg : Cfg) (pieces : List Piece) (turn : List Char)
    (allowStartingCheck : Bool) (g : Nat → Nat) : Option Board :=
  let available := allSquares cfg
  let wkSq := pickRandom available (g 0)
  let available := available.erase wkSq
  let nonAdjacentToWk := available.filter fun sq => !squaresAreAdjacent cfg wkSq sq
  if nonAdjacentToWk.length = 0 then none
  else
    let bkSq := pickRandom nonAdjacentToWk (g 1)
    let available := available.erase bkSq
    let board := mapSet (mapSet [] wkSq ⟨tK, cW⟩) bkSq ⟨tK, cB⟩
    match placePieces cfg g board available pieces 2 with
    | none => none
    | some board =>
      if !kingsAreSeparated cfg board then none
      else if !allowStartingCheck && isCheck cfg turn board then none
      else if !allowStartingCheck && isCheck cfg (oppositeColor turn) board then none
      else if isCheckmate cfg cW board then none
      else if isCheckmate cfg cB board then none
      else some board

/-- The attempt loop: `count` attempts remain, `idx` is the current attempt
number, and `G idx` supplies attempt `idx`'s random draws. -/
def genLoop (cfg : Cfg) (pieces : List Piece) (turn : List Char)
    (allowStartingCheck : Bool) (G : Nat → Nat → Nat) : Nat → Nat → Option Board
  | 0, _ => none
  | count + 1, idx =>
    match genAttempt cfg pieces turn allowStartingCheck (G idx) with
    | some b => some b
    | none => genLoop cfg pieces turn allowStartingCheck G count (idx + 1)

/-- `normalizeColor(options.turn) || "w"`: the empty string is the one falsy
normalization result. -/
def computeTurn (turnOpt : List Char) : List Char :=
  let c := normalizeColor turnOpt
  if c = [] then cW else c

/-- `generateStartingPosition(userPieces, options)` of src/main.js, with the
options object already destructured and the random stream `G` explicit. -/
def generateStartingPosition (cfg : Cfg) (userPieces : List Piece) (turnOpt : List Char)
    (maxAttempts : Nat) (allowStartingCheck : Bool) (G : Nat → Nat → Nat) :
    Board × List Char :=
  let turn := computeTurn turnOpt
  match genLoop cfg userPieces turn allowStartingCheck G maxAttempts 0 with
  | some b => (b, turn)
  | none => ([], turn)

/-- The eight sliding-ray directions (rook block then bishop block, in the
order `pseudoMovesForPiece` issues them). -/
def rayDirs : List (Int × Int) :=
  [(1, 0), (-1, 0), (0, 1), (0, -1), (1, 1), (-1, 1), (1, -1), (-1, -1)]

/-- The square holds no piece on `b`. -/
def emptyAt (b : Board) (sq : Sq) : Bool := (mapGet b sq).isNone

/-- Modelled from the spec (§4.7 step 1, "the full set of board squares"):
every file letter crossed with every rank of the configured size.  This is
the reference pool `allSquares` is compared against in claim C1. -/
def specAllBoardSquares (cfg : Cfg) : List Sq :=
  cfg.ranks.flatMap fun r => cfg.files.map fun f => f :: intToChars r

/-- Square `A1`. -/
def sqA1 : Sq := ['A', '1']

/-- Square `A2`. -/
def sqA2 : Sq := ['A', '2']

/-- Square `A3`. -/
def sqA3 : Sq := ['A', '3']

/-- Square `A4`. -/
def sqA4 : Sq := ['A', '4']

/-- Square `A5`. -/
def sqA5 : Sq := ['A', '5']

/-- Square `C1`. -/
def sqC1 : Sq := ['C', '1']

/-- Square `C3`. -/
def sqC3 : Sq := ['C', '3']

/-- Square `D1`. -/
def sqD1 : Sq := ['D', '1']

/-- Square `D2`. -/
def sqD2 : Sq := ['D', '2']

/-- Square `D3`. -/
def sqD3 : Sq := ['D', '3']

/-- Square `E1`. -/
def sqE1 : Sq := ['E', '1']

/-- The spec's ray-termination example board: white rook on `A1`, a black
piece (a bishop) on `A3`, `A2` empty. -/
def rayExBoard : Board := [(sqA1, ⟨tR, cW⟩), (sqA3, ⟨tB, cB⟩)]

/-- Board separating attack sets from pseudo-legal move sets: the white rook
on `A1` attacks (defends) the white knight on `A2`, but `A2` is not among any
white piece's pseudo-legal destinations. -/
def atkExBoard : Board := [(sqA1, ⟨tR, cW⟩), (sqA2, ⟨tN, cW⟩)]

/-- A checkmate position: white king `A2`, white queen `A3`, black king `A4`;
black is in check and every black king move is rejected. -/
def mateBoard : Board := [(sqA2, ⟨tK, cW⟩), (sqA3, ⟨tQ, cW⟩), (sqA4, ⟨tK, cB⟩)]

/-- A legal-move example board: white king `A1`, black king `C3`, white rook
`D1`. -/
def legalExBoard : Board := [(sqA1, ⟨tK, cW⟩), (sqC3, ⟨tK, cB⟩), (sqD1, ⟨tR, cW⟩)]

/-- A capture example board: white rook `D1`, black bishop `D3`. -/
def captureExBoard : Board := [(sqD1, ⟨tR, cW⟩), (sqD3, ⟨tB, cB⟩)]

/-- A board holding a single white rook and no king of either color. -/
def kinglessBoard : Board := [(sqA1, ⟨tR, cW⟩)]

theorem cloneBoard_eq (b : Board) : cloneBoard b = b := by
  simp [cloneBoard]

theorem mapGet_nil (sq : Sq) : mapGet [] sq = none := rfl

theorem find?_mapSet_hit (k : Sq) (p : Piece) :
    ∀ l : Board, l.any (fun e => e.1 == k) = true →
      (l.map fun e => if e.1 == k then (k, p) else e).find? (fun e => e.1 == k) =
        some (k, p) := by
  intro l
  induction l with
  | nil => intro hl; simp at hl
  | cons e t ih =>
    intro hl
    rw [List.map_cons]
    by_cases he : (e.1 == k) = true
    · rw [if_pos he, @List.find?_cons_of_pos _ (fun e => e.1 == k) (k, p) _ (by simp)]
    · rw [if_neg he, @List.find?_cons_of_neg _ (fun e => e.1 == k) e _ he]
      simp only [List.any_cons, Bool.or_eq_true] at hl
      rcases hl with h1 | h2
      · exact absurd h1 he
      · exact ih h2

theorem find?_append_tail (k : Sq) (p : Piece) :
    ∀ l : Board, l.any (fun e => e.1 == k) = false →
      (l ++ [(k, p)]).find? (fun e => e.1 == k) = some (k, p) := by
  intro l
  induction l with
  | nil =>
    intro _
    exact @List.find?_cons_of_pos _ (fun e => e.1 == k) (k, p) _ (by simp)
  | cons e t ih =>
    intro hl
    rw [List.any_cons, Bool.or_eq_false_iff] at hl
    rw [List.cons_append,
      @List.find?_cons_of_neg _ (fun e => e.1 == k) e _ (by simp [hl.1])]
    exact ih hl.2

theorem mapGet_mapSet_self (l : Board) (k : Sq) (p : Piece) :
    mapGet (mapSet l k p) k = some p := by
  unfold mapSet
  by_cases h : l.any (fun e => e.1 == k) = true
  · rw [if_pos h]
    unfold mapGet
    rw [find?_mapSet_hit k p l h]
    rfl
  · rw [if_neg h]
    unfold mapGet
    rw [find?_append_tail k p l (Bool.not_eq_true _ ▸ h)]
    rfl

theorem find?_mapSet_miss (k k' : Sq) (p : Piece) (hne : k' ≠ k) :
    ∀ l : Board,
      (l.map fun e => if e.1 == k then (k, p) else e).find? (fun e => e.1 == k') =
        l.find? (fun e => e.1 == k') := by
  intro l
  induction l with
  | nil => rfl
  | cons e t ih =>
    rw [List.map_cons]
    by_cases he : (e.1 == k) = true
    · have he' : e.1 = k := eq_of_beq he
      have hk1 : ¬(((k, p) : Sq × Piece).1 == k') = true := by
        simp only [beq_iff_eq]
        exact fun hk => hne hk.symm
      have hk2 : ¬(e.1 == k') = true := by
        simp only [beq_iff_eq, he']
        exact fun hk => hne hk.symm
      rw [if_pos he, @List.find?_cons_of_neg _ (fun e => e.1 == k') (k, p) _ hk1,
        @List.find?_cons_of_neg _ (fun e => e.1 == k') e _ hk2, ih]
    · rw [if_neg he]
      by_cases he2 : (e.1 == k') = true
      · rw [@List.find?_cons_of_pos _ (fun e => e.1 == k') e _ he2,
          @List.find?_cons_of_pos _ (fun e => e.1 == k') e _ he2]
      · rw [@List.find?_cons_of_neg _ (fun e => e.1 == k') e _ he2,
          @List.find?_cons_of_neg _ (fun e => e.1 == k') e _ he2, ih]

theorem mapGet_mapSet_ne (l : Board) (k k' : Sq) (p : Piece) (hne : k' ≠ k) :
    mapGet (mapSet l k p) k' = mapGet l k' := by
  unfold mapSet
  by_cases h : l.any (fun e => e.1 == k) = true
  · rw [if_pos h]
    unfold mapGet
    rw [find?_mapSet_miss k k' p hne l]
  · rw [if_neg h]
    unfold mapGet
    rw [List.find?_append]
    have h1 : (([(k, p)] : Board).find? fun e => e.1 == k') = none := by
      rw [@List.find?_cons_of_neg _ (fun e => e.1 == k') (k, p) []
        (by simp only [beq_iff_eq]; exact fun hk => hne hk.symm)]
      rfl
    rw [h1, Option.or_none]

theorem mapGet_mapDelete_self (l : Board) (k : Sq) :
    mapGet (mapDelete l k) k = none := by
  unfold mapGet mapDelete
  rw [Option.map_eq_none', List.find?_eq_none]
  intro e he
  have := (List.mem_filter.mp he).2
  simpa using this

theorem mapGet_mapDelete_ne (l : Board) (k k' : Sq) (hne : k' ≠ k) :
    mapGet (mapDelete l k) k' = mapGet l k' := by
  unfold mapGet mapDelete
  congr 1
  induction l with
  | nil => rfl
  | cons e t ih =>
    rw [List.filter_cons]
    by_cases he : (e.1 == k) = true
    · have he' : e.1 = k := eq_of_beq he
      have hk2 : ¬(e.1 == k') = true := by
        simp only [beq_iff_eq, he']
        exact fun hk => hne hk.symm
      rw [if_neg (by simp [he]), @List.find?_cons_of_neg _ (fun e => e.1 == k') e _ hk2, ih]
    · rw [if_pos (by simp [Bool.not_eq_true _ ▸ he])]
      by_cases he2 : (e.1 == k') = true
      · rw [@List.find?_cons_of_pos _ (fun e => e.1 == k') e _ he2,
          @List.find?_cons_of_pos _ (fun e => e.1 == k') e _ he2]
      · rw [@List.find?_cons_of_neg _ (fun e => e.1 == k') e _ he2,
          @List.find?_cons_of_neg _ (fun e => e.1 == k') e _ he2, ih]

theorem mem_mapSet (l : Board) (k : Sq) (p : Piece) (e : Sq × Piece)
    (he : e ∈ mapSet l k p) : e ∈ l ∨ e = (k, p) := by
  unfold mapSet at he
  by_cases h : l.any (fun e => e.1 == k) = true
  · simp only [h, if_pos] at he
    obtain ⟨x, hx, hxe⟩ := List.mem_map.mp he
    by_cases hk : (x.1 == k) = true
    · right
      simp only [hk, if_pos] at hxe
      exact hxe.symm
    · left
      simp only [hk, Bool.false_eq_true, if_neg, not_false_iff] at hxe
      exact hxe ▸ hx
  · simp only [Bool.not_eq_true] at h
    simp only [h, Bool.false_eq_true, if_neg, not_false_iff] at he
    rcases List.mem_append.mp he with h1 | h2
    · exact Or.inl h1
    · right; simpa using h2

theorem mem_mapDelete (l : Board) (k : Sq) (e : Sq × Piece)
    (he : e ∈ mapDelete l k) : e ∈ l :=
  (List.mem_filter.mp he).1

theorem mapGet_mem (l : Board) (k : Sq) (p : Piece) (h : mapGet l k = some p) :
    ∃ e ∈ l, e.2 = p := by
  unfold mapGet at h
  rw [Option.map_eq_some'] at h
  obtain ⟨e, he, hep⟩ := h
  exact ⟨e, List.mem_of_find?_eq_some he, hep⟩

theorem WF_mapDelete (l : Board) (k : Sq) (h : WFBoard l) : WFBoard (mapDelete l k) := by
  unfold WFBoard mapDelete at *
  exact h.sublist ((List.filter_sublist l).map Prod.fst)

theorem mapGet_some_mem (l : Board) (k : Sq) (p : Piece) (h : mapGet l k = some p) :
    (k, p) ∈ l := by
  unfold mapGet at h
  rw [Option.map_eq_some'] at h
  obtain ⟨e, he, hep⟩ := h
  have h1 : e.1 = k := eq_of_beq (@List.find?_some _ (fun e => e.1 == k) e l he)
  have h2 := List.mem_of_find?_eq_some he
  have he2 : e = (k, p) := by
    cases e
    cases h1
    cases hep
    rfl
  rwa [← he2]

theorem WF_mapSet (l : Board) (k : Sq) (p : Piece) (h : WFBoard l) :
    WFBoard (mapSet l k p) := by
  unfold WFBoard mapSet at *
  by_cases ha : l.any (fun e => e.1 == k) = true
  · rw [if_pos ha]
    have hkeys : ((l.map fun e => if e.1 == k then (k, p) else e).map Prod.fst) =
        l.map Prod.fst := by
      rw [List.map_map]
      apply List.map_congr_left
      intro e _
      simp only [Function.comp_apply]
      by_cases hk : (e.1 == k) = true
      · rw [if_pos hk]
        exact (eq_of_beq hk).symm
      · rw [if_neg hk]
    rw [hkeys]
    exact h
  · rw [if_neg ha, List.map_append]
    refine List.Nodup.append h (List.nodup_singleton k) ?_
    intro a hal har
    simp only [List.map_cons, List.map_nil, List.mem_singleton] at har
    subst har
    rw [Bool.not_eq_true, List.any_eq_false] at ha
    obtain ⟨e, he, hek⟩ := List.mem_map.mp hal
    exact (ha e he) (by simp [hek])

theorem applyMove_eq (b : Board) (src dst : Sq) :
    applyMove b src dst =
      match mapGet b src with
      | some piece => mapSet (mapDelete b src) dst piece
      | none => mapDelete b src := by
  simp only [applyMove, cloneBoard_eq]

theorem WF_applyMove (b : Board) (src dst : Sq) (h : WFBoard b) :
    WFBoard (applyMove b src dst) := by
  rw [applyMove_eq]
  cases hg : mapGet b src with
  | none => exact WF_mapDelete b src h
  | some p => exact WF_mapSet _ dst p (WF_mapDelete b src h)

theorem WF_entry_unique (b : Board) (h : WFBoard b) (k : Sq) (p1 p2 : Piece)
    (h1 : (k, p1) ∈ b) (h2 : (k, p2) ∈ b) : p1 = p2 := by
  induction b with
  | nil => cases h1
  | cons e t ih =>
    rw [WFBoard, List.map_cons, List.nodup_cons] at h
    rcases List.mem_cons.mp h1 with e1 | t1 <;> rcases List.mem_cons.mp h2 with e2 | t2
    · exact congrArg Prod.snd (e1.trans e2.symm)
    · exfalso
      apply h.1
      have hk : e.1 = k := by rw [← e1]
      rw [hk]
      exact List.mem_map_of_mem Prod.fst t2
    · exfalso
      apply h.1
      have hk : e.1 = k := by rw [← e2]
      rw [hk]
      exact List.mem_map_of_mem Prod.fst t1
    · exact ih h.2 t1 t2

theorem length_mapSet_hit (l : Board) (k : Sq) (p : Piece)
    (h : l.any (fun e => e.1 == k) = true) : (mapSet l k p).length = l.length := by
  unfold mapSet
  rw [if_pos h, List.length_map]

theorem length_mapSet_miss (l : Board) (k : Sq) (p : Piece)
    (h : l.any (fun e => e.1 == k) = false) : (mapSet l k p).length = l.length + 1 := by
  unfold mapSet
  rw [if_neg (by simp [h]), List.length_append]
  rfl

theorem length_mapDelete (l : Board) (k : Sq) (p : Piece) (hwf : WFBoard l)
    (hget : mapGet l k = some p) : (mapDelete l k).length + 1 = l.length := by
  induction l with
  | nil => simp [mapGet, List.find?] at hget
  | cons e t ih =>
    rw [WFBoard, List.map_cons, List.nodup_cons] at hwf
    unfold mapDelete
    rw [List.filter_cons]
    by_cases he : (e.1 == k) = true
    · rw [if_neg (by simp [he])]
      have hkeep : t.filter (fun e => !(e.1 == k)) = t := by
        rw [List.filter_eq_self]
        intro a ha
        by_cases hak : (a.1 == k) = true
        · exfalso
          apply hwf.1
          rw [eq_of_beq he, ← eq_of_beq hak]
          exact List.mem_map_of_mem Prod.fst ha
        · simp [hak]
      rw [show (t.filter fun e => !(e.1 == k)) = mapDelete t k from rfl] at hkeep
      rw [show (t.filter fun e => !(e.1 == k)) = mapDelete t k from rfl, hkeep]
      rfl
    · rw [if_pos (by simp [he])]
      have hget' : mapGet t k = some p := by
        unfold mapGet at hget ⊢
        rwa [@List.find?_cons_of_neg _ (fun e => e.1 == k) e _ he] at hget
      have hlen := ih hwf.2 hget'
      rw [show (t.filter fun e => !(e.1 == k)) = mapDelete t k from rfl]
      simp only [List.length_cons]
      omega

theorem foldl_scan_reaches (c : List Char) (sq : Sq) :
    ∀ (b : Board) (acc : Option Sq),
      b.foldl (fun acc e => if e.2.type == tK && e.2.color == c then some e.1 else acc)
        acc = some sq →
      (∃ p : Piece, (sq, p) ∈ b ∧ p.type = tK ∧ p.color = c) ∨ acc = some sq := by
  intro b
  induction b with
  | nil => intro acc h; exact Or.inr h
  | cons e t ih =>
    intro acc h
    rw [List.foldl_cons] at h
    rcases ih _ h with h1 | h2
    · left
      obtain ⟨p, hp, h3, h4⟩ := h1
      exact ⟨p, List.mem_cons_of_mem _ hp, h3, h4⟩
    · by_cases he : (e.2.type == tK && e.2.color == c) = true
      · rw [if_pos he] at h2
        left
        rw [Bool.and_eq_true] at he
        injection h2 with h2
        refine ⟨e.2, ?_, eq_of_beq he.1, eq_of_beq he.2⟩
        rw [← h2]
        exact List.mem_cons_self e t
      · rw [if_neg he] at h2
        exact Or.inr h2

theorem scanKing_some (c : List Char) (b : Board) (sq : Sq)
    (h : scanKing c b = some sq) :
    ∃ p : Piece, (sq, p) ∈ b ∧ p.type = tK ∧ p.color = c := by
  rcases foldl_scan_reaches c sq b none h with h1 | h2
  · exact h1
  · cases h2

theorem foldl_scan_const (c : List Char) :
    ∀ (b : Board) (acc : Option Sq),
      (∀ e ∈ b, (e.2.type == tK && e.2.color == c) = false) →
      b.foldl (fun acc e => if e.2.type == tK && e.2.color == c then some e.1 else acc)
        acc = acc := by
  intro b
  induction b with
  | nil => intro acc _; rfl
  | cons e t ih =>
    intro acc hb
    rw [List.foldl_cons, if_neg (by simp [hb e (List.mem_cons_self e t)])]
    exact ih acc fun e' he' => hb e' (List.mem_cons_of_mem _ he')

theorem scanKing_none (c : List Char) (b : Board)
    (h : ∀ e ∈ b, ¬(e.2.type = tK ∧ e.2.color = c)) : scanKing c b = none := by
  unfold scanKing
  apply foldl_scan_const
  intro e he
  by_cases h1 : (e.2.type == tK) = true
  · by_cases h2 : (e.2.color == c) = true
    · exact absurd ⟨eq_of_beq h1, eq_of_beq h2⟩ (h e he)
    · simp [h2]
  · simp [h1]

theorem outwardAux_succ (cfg : Cfg) (df dr fi r : Int) (m : Nat) :
    outwardAux cfg df dr fi r (m + 1) =
      match toSquare cfg fi r with
      | none => []
      | some sq => sq :: outwardAux cfg df dr (fi + df) (r + dr) m := rfl

theorem rayAttacksAux_succ (cfg : Cfg) (b : Board) (df dr fi r : Int) (m : Nat) :
    rayAttacksAux cfg b df dr fi r (m + 1) =
      match toSquare cfg fi r with
      | none => []
      | some sq =>
        match mapGet b sq with
        | some _ => [sq]
        | none => sq :: rayAttacksAux cfg b df dr (fi + df) (r + dr) m := rfl

theorem moveRayAux_succ (cfg : Cfg) (b : Board) (c : List Char) (df dr fi r : Int) (m : Nat) :
    moveRayAux cfg b c df dr fi r (m + 1) =
      match toSquare cfg fi r with
      | none => []
      | some sq =>
        match mapGet b sq with
        | none => sq :: moveRayAux cfg b c df dr (fi + df) (r + dr) m
        | some occ => if occ.color == c then [] else [sq] := rfl

theorem moveRayAux_eq_filter (cfg : Cfg) (b : Board) (c : List Char) (df dr : Int) :
    ∀ (fuel : Nat) (fi r : Int),
      moveRayAux cfg b c df dr fi r fuel =
        (rayAttacksAux cfg b df dr fi r fuel).filter (okDest b c) := by
  intro fuel
  induction fuel with
  | zero => intro fi r; rfl
  | succ n ih =>
    intro fi r
    rw [moveRayAux_succ, rayAttacksAux_succ]
    cases hts : toSquare cfg fi r with
    | none => rfl
    | some sq =>
      dsimp only
      cases hg : mapGet b sq with
      | none =>
        dsimp only
        rw [List.filter_cons_of_pos (by simp [okDest, hg]), ih]
      | some occ =>
        dsimp only
        by_cases hc : (occ.color == c) = true
        · rw [if_pos hc]
          have hd : okDest b c sq = false := by simp [okDest, hg, hc]
          simp [List.filter_cons, hd]
        · rw [if_neg hc]
          have hd : okDest b c sq = true := by
            simp only [okDest, hg]
            simpa using hc
          simp [List.filter_cons, hd]

theorem rayAttacksAux_eq (cfg : Cfg) (b : Board) (df dr : Int) :
    ∀ (fuel : Nat) (fi r : Int),
      rayAttacksAux cfg b df dr fi r fuel =
        (outwardAux cfg df dr fi r fuel).takeWhile (emptyAt b) ++
          ((outwardAux cfg df dr fi r fuel).dropWhile (emptyAt b)).take 1 := by
  intro fuel
  induction fuel with
  | zero => intro fi r; rfl
  | succ n ih =>
    intro fi r
    rw [rayAttacksAux_succ, outwardAux_succ]
    cases hts : toSquare cfg fi r with
    | none => rfl
    | some sq =>
      dsimp only
      cases hg : mapGet b sq with
      | none =>
        dsimp only
        have hemp : emptyAt b sq = true := by simp [emptyAt, hg]
        rw [List.takeWhile_cons_of_pos hemp, List.dropWhile_cons_of_pos hemp,
          List.cons_append, ih]
      | some occ =>
        dsimp only
        have hemp : emptyAt b sq = false := by simp [emptyAt, hg]
        rw [List.takeWhile_cons_of_neg (by simp [hemp]),
          List.dropWhile_cons_of_neg (by simp [hemp])]
        rfl

theorem outward_succ_or_len (cfg : Cfg) (df dr : Int) :
    ∀ (fuel : Nat) (fi r : Int),
      outwardAux cfg df dr fi r (fuel + 1) = outwardAux cfg df dr fi r fuel ∨
        (outwardAux cfg df dr fi r fuel).length = fuel := by
  intro fuel
  induction fuel with
  | zero => intro fi r; right; rfl
  | succ n ih =>
    intro fi r
    rw [outwardAux_succ cfg df dr fi r (n + 1), outwardAux_succ cfg df dr fi r n]
    cases hts : toSquare cfg fi r with
    | none => left; rfl
    | some sq =>
      dsimp only
      rcases ih (fi + df) (r + dr) with h1 | h2
      · left
        rw [h1]
      · right
        simp only [List.length_cons, h2]

theorem outward_stable (cfg : Cfg) (df dr : Int) (fi r : Int) (fuel : Nat)
    (hlen : (outwardAux cfg df dr fi r fuel).length < fuel) :
    ∀ g, fuel ≤ g → outwardAux cfg df dr fi r g = outwardAux cfg df dr fi r fuel := by
  intro g hg
  induction g, hg using Nat.le_induction with
  | base => rfl
  | succ n hn ih =>
    rcases outward_succ_or_len cfg df dr n fi r with h1 | h2
    · rw [h1, ih]
    · exfalso
      rw [ih] at h2
      omega

set_option maxHeartbeats 1000000 in
theorem outward_len_lt_4 :
    ∀ d ∈ rayDirs, ∀ fi : Nat, fi < 4 → ∀ r ∈ cfg4.ranks,
      (outwardAux cfg4 d.1 d.2 ((fi : Int) + d.1) (r + d.2) (rayFuel cfg4)).length <
        rayFuel cfg4 := by decide

set_option maxHeartbeats 1000000 in
theorem outward_len_lt_5 :
    ∀ d ∈ rayDirs, ∀ fi : Nat, fi < 5 → ∀ r ∈ cfg5.ranks,
      (outwardAux cfg5 d.1 d.2 ((fi : Int) + d.1) (r + d.2) (rayFuel cfg5)).length <
        rayFuel cfg5 := by decide

theorem parseSquare_bounds (cfg : Cfg) (x : Sq) (s : ParsedSq)
    (h : parseSquare cfg x = some s) :
    s.fileIndex < cfg.files.length ∧ s.rank ∈ cfg.ranks := by
  simp only [parseSquare] at h
  cases hm : (trimList x).map charUpper with
  | nil => rw [hm] at h; cases h
  | cons f rest =>
    cases rest with
    | nil => rw [hm] at h; cases h
    | cons r0 rest2 =>
      rw [hm] at h
      dsimp only at h
      by_cases hf : f ∈ cfg.files
      · rw [if_pos hf] at h
        cases hd : digitsVal? (r0 :: rest2) with
        | none => rw [hd] at h; cases h
        | some rank =>
          rw [hd] at h
          dsimp only at h
          by_cases hr : rank ∈ cfg.ranks
          · rw [if_pos hr] at h
            injection h with h
            subst h
            exact ⟨List.indexOf_lt_length.mpr hf, hr⟩
          · rw [if_neg hr] at h; cases h
      · rw [if_neg hf] at h; cases h

theorem rayMoves_eq_filter (cfg : Cfg) (b : Board) (c ac : List Char) (fromSq : Sq)
    (df dr : Int) :
    rayMoves cfg b c fromSq df dr =
      (rayAttacks cfg fromSq df dr b ac).filter (okDest b c) := by
  unfold rayMoves rayAttacks
  cases parseSquare cfg fromSq with
  | none => rfl
  | some s => exact moveRayAux_eq_filter cfg b c df dr (rayFuel cfg) _ _

theorem pseudoMoves_eq_filter (cfg : Cfg) (piece : Piece) (fromSq : Sq) (b : Board) :
    pseudoMovesForPiece cfg piece fromSq b =
      (attacksFromSquare cfg fromSq piece b).filter
        (okDest b (normalizeColor piece.color)) := by
  unfold pseudoMovesForPiece attacksFromSquare
  by_cases hk : (normalizePieceType piece.type == tK) = true
  · simp only [hk, if_pos]
  · simp only [hk, Bool.false_eq_true, if_neg, not_false_iff]
    by_cases hn : (normalizePieceType piece.type == tN) = true
    · simp only [hn, if_pos]
    · simp only [hn, Bool.false_eq_true, if_neg, not_false_iff]
      by_cases hr : (normalizePieceType piece.type == tR) = true
      · have hb : (normalizePieceType piece.type == tB) = false := by
          rw [beq_eq_false_iff_ne, eq_of_beq hr]
          decide
        have hq : (normalizePieceType piece.type == tQ) = false := by
          rw [beq_eq_false_iff_ne, eq_of_beq hr]
          decide
        simp only [hr, hb, hq, Bool.true_or, Bool.false_or, Bool.false_eq_true, if_pos,
          if_neg, not_false_iff, List.append_nil, List.filter_append]
        rw [rayMoves_eq_filter cfg b _ piece.color fromSq 1 0,
          rayMoves_eq_filter cfg b _ piece.color fromSq (-1) 0,
          rayMoves_eq_filter cfg b _ piece.color fromSq 0 1,
          rayMoves_eq_filter cfg b _ piece.color fromSq 0 (-1)]
      · have hr' : (normalizePieceType piece.type == tR) = false := by
          rwa [Bool.not_eq_true] at hr
        by_cases hb : (normalizePieceType piece.type == tB) = true
        · have hq : (normalizePieceType piece.type == tQ) = false := by
            rw [beq_eq_false_iff_ne, eq_of_beq hb]
            decide
          simp only [hr', hb, hq, Bool.true_or, Bool.false_or, Bool.or_false,
            Bool.false_eq_true, if_pos, if_neg, not_false_iff, List.nil_append,
            List.filter_append]
          rw [rayMoves_eq_filter cfg b _ piece.color fromSq 1 1,
            rayMoves_eq_filter cfg b _ piece.color fromSq (-1) 1,
            rayMoves_eq_filter cfg b _ piece.color fromSq 1 (-1),
            rayMoves_eq_filter cfg b _ piece.color fromSq (-1) (-1)]
        · have hb' : (normalizePieceType piece.type == tB) = false := by
            rwa [Bool.not_eq_true] at hb
          by_cases hq : (normalizePieceType piece.type == tQ) = true
          · simp only [hr', hb', hq, Bool.or_true, Bool.false_eq_true, if_pos,
              List.filter_append]
            rw [rayMoves_eq_filter cfg b _ piece.color fromSq 1 0,
              rayMoves_eq_filter cfg b _ piece.color fromSq (-1) 0,
              rayMoves_eq_filter cfg b _ piece.color fromSq 0 1,
              rayMoves_eq_filter cfg b _ piece.color fromSq 0 (-1),
              rayMoves_eq_filter cfg b _ piece.color fromSq 1 1,
              rayMoves_eq_filter cfg b _ piece.color fromSq (-1) 1,
              rayMoves_eq_filter cfg b _ piece.color fromSq 1 (-1),
              rayMoves_eq_filter cfg b _ piece.color fromSq (-1) (-1)]
            simp only [if_false, List.filter_append]
          · have hq' : (normalizePieceType piece.type == tQ) = false := by
              rwa [Bool.not_eq_true] at hq
            simp only [hr', hb', hq', Bool.or_false, Bool.false_eq_true, if_neg,
              not_false_iff, List.append_nil]
            rfl

theorem isSquareAttacked_iff (cfg : Cfg) (q : Sq) (c : List Char) (b : Board) :
    isSquareAttacked cfg q c b = true ↔
      ∃ s p, (s, p) ∈ b ∧ p.color = normalizeColor c ∧
        q ∈ attacksFromSquare cfg s p b := by
  unfold isSquareAttacked
  rw [List.any_eq_true]
  constructor
  · rintro ⟨e, he, hp⟩
    rw [Bool.and_eq_true] at hp
    exact ⟨e.1, e.2, he, eq_of_beq hp.1, List.elem_iff.mp hp.2⟩
  · rintro ⟨s, p, hmem, hc, hq⟩
    refine ⟨(s, p), hmem, ?_⟩
    rw [Bool.and_eq_true]
    exact ⟨beq_iff_eq.mpr hc, List.elem_iff.mpr hq⟩

/-- Claim C1 (code-bug evidence): `allSquares` agrees with the full board on
a 4x4 configuration but, because its loop bounds are the hard-coded literal
`4`, produces only the 16 squares `A1`..`D4` on the 5x5 configuration instead
of all 25; `E1` and `A5` can never enter the Position Generator's pool. -/
theorem C1_allSquares_pool :
    allSquares cfg4 = specAllBoardSquares cfg4 ∧
      allSquares cfg5 ≠ specAllBoardSquares cfg5 ∧
      (allSquares cfg5).length = 16 ∧
      (specAllBoardSquares cfg5).length = 25 ∧
      sqE1 ∉ allSquares cfg5 ∧ sqA5 ∉ allSquares cfg5 ∧
      sqE1 ∈ specAllBoardSquares cfg5 ∧ sqA5 ∈ specAllBoardSquares cfg5 := by
  decide

/-- Claim C2: along each ray direction, the pseudo-legal move list is exactly
the empty squares outward from the origin up to the first occupied square or
the board edge, with the first occupied square included exactly when it holds
a piece of another color (the `okDest` filter on the one-square remainder);
`outwardRay` really runs to the board edge (adding fuel changes nothing); and
in particular the white rook on `A1` with a black piece on `A3` yields exactly
`A2`, `A3` along the up-file ray. -/
theorem C2_sliding_ray_exact (cfg : Cfg) (b : Board) (c : List Char) (fromSq : Sq)
    (s : ParsedSq) (df dr : Int)
    (hcfg : cfg = cfg4 ∨ cfg = cfg5)
    (hparse : parseSquare cfg fromSq = some s)
    (hdir : (df, dr) ∈ rayDirs) :
    rayMoves cfg b c fromSq df dr =
        (outwardRay cfg s df dr).takeWhile (emptyAt b) ++
          (((outwardRay cfg s df dr).dropWhile (emptyAt b)).take 1).filter (okDest b c) ∧
      (∀ fuel, rayFuel cfg ≤ fuel →
        outwardAux cfg df dr ((s.fileIndex : Int) + df) (s.rank + dr) fuel =
          outwardRay cfg s df dr) ∧
      rayMoves cfg4 rayExBoard cW sqA1 0 1 = [sqA2, sqA3] := by
  refine ⟨?_, ?_, by decide⟩
  · unfold rayMoves
    rw [hparse]
    dsimp only
    rw [moveRayAux_eq_filter, rayAttacksAux_eq, List.filter_append]
    have hemp : ((outwardAux cfg df dr ((s.fileIndex : Int) + df) (s.rank + dr)
        (rayFuel cfg)).takeWhile (emptyAt b)).filter (okDest b c) =
        (outwardAux cfg df dr ((s.fileIndex : Int) + df) (s.rank + dr)
          (rayFuel cfg)).takeWhile (emptyAt b) := by
      rw [List.filter_eq_self]
      intro a ha
      have h1 := List.mem_takeWhile_imp ha
      simp only [emptyAt, Option.isNone_iff_eq_none] at h1
      simp [okDest, h1]
    rw [hemp]
    rfl
  · intro fuel hf
    unfold outwardRay
    apply outward_stable
    · obtain ⟨hfi, hr⟩ := parseSquare_bounds cfg fromSq s hparse
      rcases hcfg with h | h <;> subst h
      · exact outward_len_lt_4 (df, dr) hdir s.fileIndex hfi s.rank hr
      · exact outward_len_lt_5 (df, dr) hdir s.fileIndex hfi s.rank hr
    · exact hf

/-- Witness for C2 at the spec's own example: the up ray of the white rook
on `A1` against the board with a black piece on `A3`. -/
theorem C2_sliding_ray_exact_witness :
    parseSquare cfg4 sqA1 = some ⟨'A', 1, 0⟩ ∧
      ((0 : Int), (1 : Int)) ∈ rayDirs ∧
      rayMoves cfg4 rayExBoard cW sqA1 0 1 = [sqA2, sqA3] :=
  ⟨by decide, by decide,
    (C2_sliding_ray_exact cfg4 rayExBoard cW sqA1 ⟨'A', 1, 0⟩ 0 1 (Or.inl rfl)
      (by decide) (by decide)).2.2⟩

/-- Claim C3, counterexample to the claimed equivalence: on the board with a
white rook on `A1` and a white knight on `A2`, `isSquareAttacked` reports
`A2` attacked by white (the ray-attack walk pushes the first occupied square
regardless of its color), yet no white piece has `A2` among its pseudo-legal
destinations (the same-color blocker is excluded there). -/
theorem C3_counterexample :
    isSquareAttacked cfg4 sqA2 cW atkExBoard = true ∧
      ¬∃ s p, (s, p) ∈ atkExBoard ∧ p.color = normalizeColor cW ∧
        sqA2 ∈ pseudoMovesForPiece cfg4 p s atkExBoard := by
  constructor
  · decide
  · rintro ⟨s, p, hmem, hc, hq⟩
    have hall : ∀ e ∈ atkExBoard, ¬(e.2.color = normalizeColor cW ∧
        sqA2 ∈ pseudoMovesForPiece cfg4 e.2 e.1 atkExBoard) := by decide
    exact hall (s, p) hmem ⟨hc, hq⟩

/-- Claim C3 as amended: `isSquareAttacked(q, c, b)` holds iff some piece of
color `c` has `q` in its attack set (`attacksFromSquare`); and the
pseudo-legal move set is the attack set filtered by the occupancy rule, so
the two differ exactly on geometrically reachable squares occupied by a piece
of the mover's own color. -/
theorem C3_attacked_iff_attack_set (cfg : Cfg) (b : Board) (q : Sq) (c : List Char) :
    (isSquareAttacked cfg q c b = true ↔
      ∃ s p, (s, p) ∈ b ∧ p.color = normalizeColor c ∧
        q ∈ attacksFromSquare cfg s p b) ∧
      ∀ (s : Sq) (p : Piece),
        pseudoMovesForPiece cfg p s b =
          (attacksFromSquare cfg s p b).filter (okDest b (normalizeColor p.color)) :=
  ⟨isSquareAttacked_iff cfg q c b, fun s p => pseudoMoves_eq_filter cfg p s b⟩

/-- Claim C8: for in-bounds coordinates of either configured board size,
`toSquare` yields a square text and `parseSquare` recovers the same file
index and rank from it. -/
theorem C8_parse_toSquare_roundtrip (cfg : Cfg) (fi r : Int)
    (hcfg : cfg = cfg4 ∨ cfg = cfg5)
    (h0 : 0 ≤ fi) (hlt : fi < (cfg.files.length : Int)) (hr : r ∈ cfg.ranks) :
    ∃ txt s, toSquare cfg fi r = some txt ∧ parseSquare cfg txt = some s ∧
      (s.fileIndex : Int) = fi ∧ s.rank = r := by
  rcases hcfg with h | h <;> subst h
  · have hlt' : fi < 4 := by simpa [cfg4] using hlt
    have hr' : r = 1 ∨ r = 2 ∨ r = 3 ∨ r = 4 := by simpa [cfg4] using hr
    interval_cases fi <;> rcases hr' with h | h | h | h <;> subst h <;>
      exact ⟨_, _, rfl, rfl, by decide, by decide⟩
  · have hlt' : fi < 5 := by simpa [cfg5] using hlt
    have hr' : r = 1 ∨ r = 2 ∨ r = 3 ∨ r = 4 ∨ r = 5 := by simpa [cfg5] using hr
    interval_cases fi <;> rcases hr' with h | h | h | h | h <;> subst h <;>
      exact ⟨_, _, rfl, rfl, by decide, by decide⟩

theorem isCheck_normalize (cfg : Cfg) (c : List Char) (b : Board)
    (hc : normalizeColor c = cW ∨ normalizeColor c = cB) :
    isCheck cfg (normalizeColor c) b = isCheck cfg c b := by
  unfold isCheck
  rcases hc with h | h <;> rw [h]
  · rw [show normalizeColor cW = cW from by decide]
  · rw [show normalizeColor cB = cB from by decide]

theorem allLegalMoves_normalize (cfg : Cfg) (c : List Char) (b : Board)
    (hc : normalizeColor c = cW ∨ normalizeColor c = cB) :
    allLegalMoves cfg (normalizeColor c) b = allLegalMoves cfg c b := by
  unfold allLegalMoves
  rcases hc with h | h <;> rw [h]
  · rw [show normalizeColor cW = cW from by decide]
  · rw [show normalizeColor cB = cB from by decide]

/-- Claim C6: checkmate implies check, checkmate implies an empty legal-move
list, and stalemate implies not-check, for every board and every color token
that normalizes to one of the engine's two colors (the data model's whole
color vocabulary). -/
theorem C6_classifier_implications (cfg : Cfg) (c : List Char) (b : Board)
    (hc : normalizeColor c = cW ∨ normalizeColor c = cB) :
    (isCheckmate cfg c b = true → isCheck cfg c b = true) ∧
      (isCheckmate cfg c b = true → allLegalMoves cfg c b = []) ∧
      (isStalemate cfg c b = true → isCheck cfg c b = false) := by
  have hck := isCheck_normalize cfg c b hc
  have halm := allLegalMoves_normalize cfg c b hc
  refine ⟨?_, ?_, ?_⟩
  · intro h
    simp only [isCheckmate] at h
    split at h
    · rw [← hck]
      assumption
    · cases h
  · intro h
    simp only [isCheckmate] at h
    split at h
    · rw [← halm]
      rw [beq_iff_eq] at h
      exact List.length_eq_zero.mp h
    · cases h
  · intro h
    simp only [isStalemate] at h
    split at h
    · cases h
    · rw [← hck]
      simpa using (by assumption : ¬isCheck cfg (normalizeColor c) b = true)

/-- Witness for C6: the concrete checkmate position (black king cornered by
the protected white queen) and the empty board's stalemate. -/
theorem C6_classifier_implications_witness :
    isCheckmate cfg4 cB mateBoard = true ∧
      isCheck cfg4 cB mateBoard = true ∧
      allLegalMoves cfg4 cB mateBoard = [] ∧
      isStalemate cfg4 cW ([] : Board) = true ∧
      isCheck cfg4 cW ([] : Board) = false :=
  ⟨by decide,
    (C6_classifier_implications cfg4 cB mateBoard (Or.inr (by decide))).1 (by decide),
    (C6_classifier_implications cfg4 cB mateBoard (Or.inr (by decide))).2.1 (by decide),
    by decide,
    (C6_classifier_implications cfg4 cW [] (Or.inl (by decide))).2.2 (by decide)⟩

/-- Claim C7: `applyMove` is move-only: with a piece at the source and a
distinct destination, the result has the source empty, the destination
holding the moved piece, and one fewer entry exactly when the destination was
occupied (a capture); cloning is the identity on board values, so the input
board is untouched. -/
theorem C7_applyMove_counts (b : Board) (src dst : Sq) (p : Piece)
    (hwf : WFBoard b) (hsrc : mapGet b src = some p) (hne : dst ≠ src) :
    mapGet (applyMove b src dst) src = none ∧
      mapGet (applyMove b src dst) dst = some p ∧
      (applyMove b src dst).length =
        (if (mapGet b dst).isSome then b.length - 1 else b.length) ∧
      cloneBoard b = b := by
  have hA : applyMove b src dst = mapSet (mapDelete b src) dst p := by
    rw [applyMove_eq, hsrc]
  rw [hA]
  refine ⟨?_, ?_, ?_, cloneBoard_eq b⟩
  · rw [mapGet_mapSet_ne _ _ _ _ (fun hh => hne hh.symm)]
    exact mapGet_mapDelete_self b src
  · exact mapGet_mapSet_self _ dst p
  · have hdel : (mapDelete b src).length + 1 = b.length :=
      length_mapDelete b src p hwf hsrc
    by_cases hocc : (mapGet b dst).isSome = true
    · rw [if_pos hocc]
      obtain ⟨q, hq⟩ := Option.isSome_iff_exists.mp hocc
      have hdget : mapGet (mapDelete b src) dst = some q := by
        rw [mapGet_mapDelete_ne b src dst hne]
        exact hq
      have hany : (mapDelete b src).any (fun e => e.1 == dst) = true := by
        have hm := mapGet_some_mem _ dst q hdget
        rw [List.any_eq_true]
        exact ⟨(dst, q), hm, by simp⟩
      rw [length_mapSet_hit _ dst p hany]
      omega
    · rw [if_neg hocc]
      have hnone : mapGet b dst = none := by
        cases hgd : mapGet b dst with
        | none => rfl
        | some q => rw [hgd] at hocc; simp at hocc
      have hdget : mapGet (mapDelete b src) dst = none := by
        rw [mapGet_mapDelete_ne b src dst hne]
        exact hnone
      have hany : (mapDelete b src).any (fun e => e.1 == dst) = false := by
        rw [List.any_eq_false]
        intro e he hbeq
        have hfind : (mapDelete b src).find? (fun e => e.1 == dst) = none := by
          unfold mapGet at hdget
          exact Option.map_eq_none'.mp hdget
        rw [List.find?_eq_none] at hfind
        exact (hfind e he) hbeq
      rw [length_mapSet_miss _ dst p hany]
      omega

/-- Witness for C7: the white rook on `D1` captures the black bishop on `D3`
(entry count drops from 2 to 1). -/
theorem C7_applyMove_counts_witness :
    WFBoard captureExBoard ∧ mapGet captureExBoard sqD1 = some ⟨tR, cW⟩ ∧
      sqD3 ≠ sqD1 ∧
      (mapGet (applyMove captureExBoard sqD1 sqD3) sqD1 = none ∧
        mapGet (applyMove captureExBoard sqD1 sqD3) sqD3 = some ⟨tR, cW⟩ ∧
        (applyMove captureExBoard sqD1 sqD3).length =
          (if (mapGet captureExBoard sqD3).isSome then captureExBoard.length - 1
            else captureExBoard.length) ∧
        cloneBoard captureExBoard = captureExBoard) :=
  ⟨by decide, by decide, by decide,
    C7_applyMove_counts captureExBoard sqD1 sqD3 ⟨tR, cW⟩ (by decide) (by decide)
      (by decide)⟩

theorem mapGetU_toBoardU (b : Board) (k : Sq) : mapGetU (toBoardU b) k = mapGet b k := by
  induction b with
  | nil => rfl
  | cons e t ih =>
    simp only [toBoardU, List.map_cons] at *
    by_cases he : (e.1 == k) = true
    · unfold mapGetU mapGet
      rw [@List.find?_cons_of_pos _ (fun x => x.1 == k) (e.1, some e.2) _ he,
        @List.find?_cons_of_pos _ (fun x => x.1 == k) e _ he]
      rfl
    · unfold mapGetU mapGet
      rw [@List.find?_cons_of_neg _ (fun x => x.1 == k) (e.1, some e.2) _ he,
        @List.find?_cons_of_neg _ (fun x => x.1 == k) e _ he]
      exact ih

theorem mapDeleteU_toBoardU (b : Board) (k : Sq) :
    mapDeleteU (toBoardU b) k = toBoardU (mapDelete b k) := by
  induction b with
  | nil => rfl
  | cons e t ih =>
    simp only [toBoardU, List.map_cons, mapDeleteU, mapDelete, List.filter_cons] at *
    by_cases he : (e.1 == k) = true
    · simp only [he, Bool.not_true, Bool.false_eq_true, if_neg, not_false_iff]
      exact ih
    · have he' : (e.1 == k) = false := by rwa [Bool.not_eq_true] at he
      simp only [he', Bool.not_false, if_pos, List.map_cons]
      rw [ih]

theorem mapSetU_toBoardU (b : Board) (k : Sq) (p : Piece) :
    mapSetU (toBoardU b) k (some p) = toBoardU (mapSet b k p) := by
  unfold mapSetU mapSet toBoardU
  have hany : ((List.map (fun e : Sq × Piece => (e.1, some e.2)) b).any
      fun e => e.1 == k) = (b.any fun e => e.1 == k) := by
    induction b with
    | nil => rfl
    | cons e t ihh => simp only [List.map_cons, List.any_cons, ihh]
  rw [hany]
  by_cases ha : (b.any fun e => e.1 == k) = true
  · rw [if_pos ha, if_pos ha, List.map_map, List.map_map]
    apply List.map_congr_left
    intro e _
    simp only [Function.comp_apply]
    by_cases he : (e.1 == k) = true
    · rw [if_pos he, if_pos he]
    · rw [if_neg he, if_neg he]
  · rw [if_neg ha, if_neg ha, List.map_append]
    rfl

theorem definedBoard?_toBoardU (b : Board) : definedBoard? (toBoardU b) = some b := by
  unfold definedBoard? toBoardU
  rw [if_neg ?hno]
  case hno =>
    rw [Bool.not_eq_true, List.any_eq_false]
    intro x hx
    obtain ⟨y, -, rfl⟩ := List.mem_map.mp hx
    simp
  congr 1
  induction b with
  | nil => rfl
  | cons e t ih =>
    simp only [List.map_cons, List.filterMap_cons, Option.map_some']
    rw [ih]

theorem mapSetU_none_has_undefined (l : BoardU) (k : Sq) :
    (mapSetU l k none).any (fun e => e.2.isNone) = true := by
  unfold mapSetU
  by_cases ha : l.any (fun e => e.1 == k) = true
  · rw [if_pos ha]
    rw [List.any_eq_true] at ha ⊢
    obtain ⟨e, he, hek⟩ := ha
    exact ⟨(k, none), List.mem_map.mpr ⟨e, he, by simp [hek]⟩, rfl⟩
  · rw [if_neg ha]
    rw [List.any_eq_true]
    exact ⟨(k, none), List.mem_append.mpr (Or.inr (List.mem_singleton.mpr rfl)), rfl⟩

theorem applyMoveU_occupied (b : Board) (src dst : Sq) (q : Piece)
    (h : mapGet b src = some q) :
    applyMoveU b src dst = toBoardU (applyMove b src dst) := by
  simp only [applyMoveU, cloneBoard_eq]
  rw [mapGetU_toBoardU, h, mapDeleteU_toBoardU, mapSetU_toBoardU, applyMove_eq, h]

theorem definedBoard?_applyMoveU_occupied (b : Board) (src dst : Sq) (q : Piece)
    (h : mapGet b src = some q) :
    definedBoard? (applyMoveU b src dst) = some (applyMove b src dst) := by
  rw [applyMoveU_occupied b src dst q h, definedBoard?_toBoardU]

theorem definedBoard?_applyMoveU_empty (b : Board) (src dst : Sq)
    (h : mapGet b src = none) :
    definedBoard? (applyMoveU b src dst) = none := by
  have hU : applyMoveU b src dst =
      mapSetU (mapDeleteU (toBoardU b) src) dst none := by
    simp only [applyMoveU, cloneBoard_eq]
    rw [mapGetU_toBoardU, h]
  rw [hU]
  unfold definedBoard?
  rw [if_pos (mapSetU_none_has_undefined _ dst)]

theorem legalLoopE_cons (cfg : Cfg) (b : Board) (p : Piece) (fromSq : Sq)
    (acc : List Sq) (dst : Sq) (rest : List Sq) :
    legalLoopE cfg b p fromSq acc (dst :: rest) =
      match definedBoard? (applyMoveU b fromSq dst) with
      | none => none
      | some nb =>
        if kingsAreSeparated cfg nb && !isCheck cfg p.color nb &&
            (!(p.type == tK) || !isSquareAttacked cfg dst (oppositeColor p.color) nb)
        then legalLoopE cfg b p fromSq (acc ++ [dst]) rest
        else legalLoopE cfg b p fromSq acc rest := rfl

theorem legalLoopE_filter (cfg : Cfg) (b : Board) (p : Piece) (fromSq : Sq)
    (q : Piece) (h : mapGet b fromSq = some q) :
    ∀ (l acc : List Sq),
      legalLoopE cfg b p fromSq acc l =
        some (acc ++ l.filter (legalPred cfg b p fromSq)) := by
  intro l
  induction l with
  | nil => intro acc; simp [legalLoopE]
  | cons dst rest ih =>
    intro acc
    rw [legalLoopE_cons, definedBoard?_applyMoveU_occupied b fromSq dst q h]
    dsimp only
    split
    · rename_i hc
      rw [ih, @List.filter_cons_of_pos _ (legalPred cfg b p fromSq) dst rest hc,
        List.append_assoc]
      rfl
    · rename_i hc
      rw [ih, @List.filter_cons_of_neg _ (legalPred cfg b p fromSq) dst rest hc]

theorem getLegalMovesE_occupied (cfg : Cfg) (piece : Piece) (fromSq : Sq) (b : Board)
    (q : Piece) (h : mapGet b fromSq = some q) :
    getLegalMovesE cfg piece fromSq b = some (getLegalMoves cfg piece fromSq b) := by
  simp only [getLegalMovesE, getLegalMoves]
  rw [legalLoopE_filter cfg b _ fromSq q h]
  rw [List.nil_append]
  rfl

theorem getLegalMovesE_empty_src (cfg : Cfg) (piece : Piece) (fromSq : Sq) (b : Board)
    (h : mapGet b fromSq = none)
    (hne : pseudoMovesForPiece cfg
      ⟨normalizePieceType piece.type, normalizeColor piece.color⟩ fromSq b ≠ []) :
    getLegalMovesE cfg piece fromSq b = none := by
  simp only [getLegalMovesE]
  cases hl : pseudoMovesForPiece cfg
      ⟨normalizePieceType piece.type, normalizeColor piece.color⟩ fromSq b with
  | nil => exact absurd hl hne
  | cons dst rest =>
    rw [legalLoopE_cons, definedBoard?_applyMoveU_empty b fromSq dst h]

theorem applyMove_no_king (b : Board) (src dst : Sq) (cc : List Char)
    (h : ∀ e ∈ b, ¬(e.2.type = tK ∧ e.2.color = cc)) :
    ∀ e ∈ applyMove b src dst, ¬(e.2.type = tK ∧ e.2.color = cc) := by
  intro e he
  rw [applyMove_eq] at he
  cases hg : mapGet b src with
  | none =>
    rw [hg] at he
    exact h e (mem_mapDelete _ _ _ he)
  | some p =>
    rw [hg] at he
    rcases mem_mapSet _ _ _ _ he with h1 | h2
    · exact h e (mem_mapDelete _ _ _ h1)
    · subst h2
      have hp := mapGet_some_mem b src p hg
      exact h (src, p) hp

theorem kingsAreSeparated_false_of_no_king (cfg : Cfg) (b : Board)
    (h : (∀ e ∈ b, ¬(e.2.type = tK ∧ e.2.color = cW)) ∨
      (∀ e ∈ b, ¬(e.2.type = tK ∧ e.2.color = cB))) :
    kingsAreSeparated cfg b = false := by
  unfold kingsAreSeparated
  rcases h with h | h
  · rw [scanKing_none cW b h]
  · rw [scanKing_none cB b h]
    cases scanKing cW b <;> rfl

/-- Claim C10, counterexample to the original unrestricted quantification: on
the degraded empty board a call with a rook argument at `A1` has non-empty
pseudo-move candidates, and `getLegalMoves` does not return the empty list —
the program throws a TypeError instead (`applyMove` stores `undefined` at the
first candidate destination and `kingsAreSeparated` dereferences `p.type` on
that entry), modelled as `none` by the error-aware `getLegalMovesE`. -/
theorem C10_counterexample :
    pseudoMovesForPiece cfg4 ⟨tR, cW⟩ sqA1 ([] : Board) ≠ [] ∧
      getLegalMovesE cfg4 ⟨tR, cW⟩ sqA1 ([] : Board) = none ∧
      getLegalMovesE cfg4 ⟨tR, cW⟩ sqA1 ([] : Board) ≠ some [] := by
  decide

/-- Claim C10 as amended: with no king of a color on the board, `isCheck` for
that color is `false`; with either king missing, `getLegalMoves` is empty for
every piece argument at every occupied square (every simulated board also
misses that king, so `kingsAreSeparated` rejects every candidate), and the
error-aware run returns `some []` there; for a piece argument at an empty
square with a non-empty candidate list the call does not return at all on any
board — the first simulation poisons the map and the TypeError aborts it
(`none`); and on the empty board `isStalemate` reports `true` for every color
rather than a distinct failure state (`allLegalMoves` only consults the
board's own entries, so the crashing phantom-piece path never arises from
the classifiers). -/
theorem C10_missing_king_degradation (cfg : Cfg) (b : Board) (c : List Char) :
    ((∀ e ∈ b, ¬(e.2.type = tK ∧ e.2.color = normalizeColor c)) →
        isCheck cfg c b = false) ∧
      (((∀ e ∈ b, ¬(e.2.type = tK ∧ e.2.color = cW)) ∨
          (∀ e ∈ b, ¬(e.2.type = tK ∧ e.2.color = cB))) →
        ∀ (piece q : Piece) (fromSq : Sq), mapGet b fromSq = some q →
          getLegalMoves cfg piece fromSq b = [] ∧
          getLegalMovesE cfg piece fromSq b = some []) ∧
      (∀ (piece : Piece) (fromSq : Sq), mapGet b fromSq = none →
        pseudoMovesForPiece cfg
          ⟨normalizePieceType piece.type, normalizeColor piece.color⟩ fromSq b ≠ [] →
        getLegalMovesE cfg piece fromSq b = none) ∧
      isStalemate cfg c ([] : Board) = true := by
  refine ⟨?_, ?_, ?_, rfl⟩
  · intro h
    simp only [isCheck]
    have hf : b.find? (fun e => e.2.type == tK && e.2.color == normalizeColor c) =
        none := by
      rw [List.find?_eq_none]
      intro e he hp
      rw [Bool.and_eq_true] at hp
      exact h e he ⟨eq_of_beq hp.1, eq_of_beq hp.2⟩
    rw [hf]
  · intro h piece q fromSq hq
    have hempty : getLegalMoves cfg piece fromSq b = [] := by
      unfold getLegalMoves
      rw [List.filter_eq_nil_iff]
      intro dst _
      have hsep : kingsAreSeparated cfg (applyMove b fromSq dst) = false := by
        apply kingsAreSeparated_false_of_no_king
        rcases h with h | h
        · exact Or.inl (applyMove_no_king b fromSq dst cW h)
        · exact Or.inr (applyMove_no_king b fromSq dst cB h)
      simp [hsep]
    refine ⟨hempty, ?_⟩
    rw [getLegalMovesE_occupied cfg piece fromSq b q hq, hempty]
  · intro piece fromSq hq hne
    exact getLegalMovesE_empty_src cfg piece fromSq b hq hne

/-- Witness for C10: on the kingless one-rook board white is not in check,
the rook at its occupied square has no legal moves and its error-aware run
returns `some []`, the phantom rook at the empty `A2` makes the run abort
(`none`), and the empty board is a stalemate for black. -/
theorem C10_missing_king_degradation_witness :
    (∀ e ∈ kinglessBoard, ¬(e.2.type = tK ∧ e.2.color = normalizeColor cW)) ∧
      isCheck cfg4 cW kinglessBoard = false ∧
      (getLegalMoves cfg4 ⟨tR, cW⟩ sqA1 kinglessBoard = [] ∧
        getLegalMovesE cfg4 ⟨tR, cW⟩ sqA1 kinglessBoard = some []) ∧
      getLegalMovesE cfg4 ⟨tR, cW⟩ sqA2 kinglessBoard = none ∧
      isStalemate cfg4 cB ([] : Board) = true :=
  ⟨by decide,
    (C10_missing_king_degradation cfg4 kinglessBoard cW).1 (by decide),
    (C10_missing_king_degradation cfg4 kinglessBoard cW).2.1 (Or.inl (by decide))
      ⟨tR, cW⟩ ⟨tR, cW⟩ sqA1 (by decide),
    (C10_missing_king_degradation cfg4 kinglessBoard cW).2.2.1 ⟨tR, cW⟩ sqA2
      (by decide) (by decide),
    (C10_missing_king_degradation cfg4 [] cB).2.2.2⟩

theorem kingsAreSeparated_elim (cfg : Cfg) (b : Board)
    (h : kingsAreSeparated cfg b = true) :
    ∃ wk bk, scanKing cW b = some wk ∧ scanKing cB b = some bk ∧
      squaresAreAdjacent cfg wk bk = false := by
  unfold kingsAreSeparated at h
  cases hw : scanKing cW b with
  | none =>
    rw [hw] at h
    dsimp only at h
    cases h
  | some wk =>
    cases hb2 : scanKing cB b with
    | none =>
      rw [hw, hb2] at h
      dsimp only at h
      cases h
    | some bk =>
      rw [hw, hb2] at h
      dsimp only at h
      exact ⟨wk, bk, rfl, rfl, by simpa using h⟩

/-- Claim C4: every destination accepted by the Legality Filter yields a
simulated board on which the code's king scans find both kings, on distinct
non-adjacent squares, the mover's color is not in check, and a moving king
does not stand on a square attacked by the opponent. -/
theorem C4_legal_moves_safe (cfg : Cfg) (b : Board) (piece : Piece) (fromSq dst : Sq)
    (hwf : WFBoard b)
    (hkw : (b.countP fun e => e.2.type == tK && e.2.color == cW) = 1)
    (hkb : (b.countP fun e => e.2.type == tK && e.2.color == cB) = 1)
    (hat : mapGet b fromSq = some piece)
    (hmem : dst ∈ getLegalMoves cfg piece fromSq b) :
    (∃ wk bk, scanKing cW (applyMove b fromSq dst) = some wk ∧
        scanKing cB (applyMove b fromSq dst) = some bk ∧ wk ≠ bk ∧
        squaresAreAdjacent cfg wk bk = false) ∧
      isCheck cfg (normalizeColor piece.color) (applyMove b fromSq dst) = false ∧
      (normalizePieceType piece.type = tK →
        isSquareAttacked cfg dst (oppositeColor (normalizeColor piece.color))
          (applyMove b fromSq dst) = false) := by
  simp only [getLegalMoves] at hmem
  have hpred := (List.mem_filter.mp hmem).2
  simp only [Bool.and_eq_true, Bool.or_eq_true, Bool.not_eq_true'] at hpred
  obtain ⟨⟨hsep, hnc⟩, hking⟩ := hpred
  refine ⟨?_, hnc, ?_⟩
  · obtain ⟨wk, bk, hw, hb2, hadj⟩ := kingsAreSeparated_elim cfg _ hsep
    refine ⟨wk, bk, hw, hb2, ?_, hadj⟩
    intro heq
    obtain ⟨pw, hpwm, hpwt, hpwc⟩ := scanKing_some cW _ wk hw
    obtain ⟨pb, hpbm, hpbt, hpbc⟩ := scanKing_some cB _ bk hb2
    subst heq
    have hwfn := WF_applyMove b fromSq dst hwf
    have := WF_entry_unique _ hwfn wk pw pb hpwm hpbm
    rw [this] at hpwc
    rw [hpwc] at hpbc
    exact absurd hpbc (by decide)
  · intro ht
    rcases hking with hk1 | hk2
    · exfalso
      rw [beq_eq_false_iff_ne] at hk1
      exact hk1 ht
    · exact hk2

/-- Witness for C4: the white rook moving from `D1` to `D2` on the board with
white king `A1` and black king `C3`. -/
theorem C4_legal_moves_safe_witness :
    WFBoard legalExBoard ∧
      (legalExBoard.countP fun e => e.2.type == tK && e.2.color == cW) = 1 ∧
      (legalExBoard.countP fun e => e.2.type == tK && e.2.color == cB) = 1 ∧
      mapGet legalExBoard sqD1 = some ⟨tR, cW⟩ ∧
      sqD2 ∈ getLegalMoves cfg4 ⟨tR, cW⟩ sqD1 legalExBoard ∧
      isCheck cfg4 (normalizeColor cW) (applyMove legalExBoard sqD1 sqD2) = false :=
  ⟨by decide, by decide, by decide, by decide, by decide,
    (C4_legal_moves_safe cfg4 legalExBoard ⟨tR, cW⟩ sqD1 sqD2 (by decide) (by decide)
      (by decide) (by decide) (by decide)).2.1⟩

theorem genLoop_succ (cfg : Cfg) (pieces : List Piece) (turn : List Char)
    (allow : Bool) (G : Nat → Nat → Nat) (n idx : Nat) :
    genLoop cfg pieces turn allow G (n + 1) idx =
      match genAttempt cfg pieces turn allow (G idx) with
      | some b => some b
      | none => genLoop cfg pieces turn allow G n (idx + 1) := rfl

theorem genAttempt_guards (cfg : Cfg) (pieces : List Piece) (turn : List Char)
    (g : Nat → Nat) (b : Board)
    (h : genAttempt cfg pieces turn false g = some b) :
    kingsAreSeparated cfg b = true ∧ isCheck cfg turn b = false ∧
      isCheck cfg (oppositeColor turn) b = false ∧
      isCheckmate cfg cW b = false ∧ isCheckmate cfg cB b = false := by
  simp only [genAttempt] at h
  split at h
  · cases h
  · split at h
    · cases h
    · split at h
      · cases h
      · split at h
        · cases h
        · split at h
          · cases h
          · split at h
            · cases h
            · split at h
              · cases h
              · injection h with h
                subst h
                rename_i hm2
                rename_i hm1
                rename_i hc2
                rename_i hc1
                rename_i hsep
                refine ⟨by simpa using hsep, by simpa using hc1, by simpa using hc2,
                  by simpa using hm1, by simpa using hm2⟩

theorem genLoop_guards (cfg : Cfg) (pieces : List Piece) (turn : List Char)
    (G : Nat → Nat → Nat) :
    ∀ (count idx : Nat) (b : Board),
      genLoop cfg pieces turn false G count idx = some b →
      kingsAreSeparated cfg b = true ∧ isCheck cfg turn b = false ∧
        isCheck cfg (oppositeColor turn) b = false ∧
        isCheckmate cfg cW b = false ∧ isCheckmate cfg cB b = false := by
  intro count
  induction count with
  | zero => intro idx b h; cases h
  | succ n ih =>
    intro idx b h
    rw [genLoop_succ] at h
    cases hA : genAttempt cfg pieces turn false (G idx) with
    | some b' =>
      rw [hA] at h
      injection h with h
      subst h
      exact genAttempt_guards cfg pieces turn (G idx) b' hA
    | none =>
      rw [hA] at h
      exact ih (idx + 1) b h

/-- Claim C5: every non-empty board the generator returns in check-disallowed
mode (for a turn option normalizing to an actual color) carries both kings on
non-adjacent squares, neither color in check, and neither color checkmated. -/
theorem C5_generated_position_valid (cfg : Cfg) (pieces : List Piece)
    (turnOpt : List Char) (maxAttempts : Nat) (G : Nat → Nat → Nat) (b : Board)
    (t : List Char)
    (ht : computeTurn turnOpt = cW ∨ computeTurn turnOpt = cB)
    (hgen : generateStartingPosition cfg pieces turnOpt maxAttempts false G = (b, t))
    (hne : b ≠ []) :
    (∃ wk pw, (wk, pw) ∈ b ∧ pw.type = tK ∧ pw.color = cW) ∧
      (∃ bk pb, (bk, pb) ∈ b ∧ pb.type = tK ∧ pb.color = cB) ∧
      (∃ wk bk, scanKing cW b = some wk ∧ scanKing cB b = some bk ∧
        squaresAreAdjacent cfg wk bk = false) ∧
      isCheck cfg cW b = false ∧ isCheck cfg cB b = false ∧
      isCheckmate cfg cW b = false ∧ isCheckmate cfg cB b = false := by
  simp only [generateStartingPosition] at hgen
  cases hL : genLoop cfg pieces (computeTurn turnOpt) false G maxAttempts 0 with
  | none =>
    rw [hL] at hgen
    dsimp only at hgen
    rw [Prod.mk.injEq] at hgen
    exact absurd hgen.1.symm hne
  | some b' =>
    rw [hL] at hgen
    dsimp only at hgen
    rw [Prod.mk.injEq] at hgen
    obtain ⟨hb, -⟩ := hgen
    rw [hb] at hL
    have hg := genLoop_guards cfg pieces (computeTurn turnOpt) G maxAttempts 0 b hL
    obtain ⟨hsep, hc1, hc2, hm1, hm2⟩ := hg
    have hkex := kingsAreSeparated_elim cfg b hsep
    obtain ⟨wk, bk, hw, hb2, hadj⟩ := hkex
    obtain ⟨pw, hpwm, hpwt, hpwc⟩ := scanKing_some cW b wk hw
    obtain ⟨pb, hpbm, hpbt, hpbc⟩ := scanKing_some cB b bk hb2
    refine ⟨⟨wk, pw, hpwm, hpwt, hpwc⟩, ⟨bk, pb, hpbm, hpbt, hpbc⟩,
      ⟨wk, bk, hw, hb2, hadj⟩, ?_, ?_, hm1, hm2⟩
    · rcases ht with h | h <;> rw [h] at hc1 hc2
      · exact hc1
      · rwa [show oppositeColor cB = cW from by decide] at hc2
    · rcases ht with h | h <;> rw [h] at hc1 hc2
      · rwa [show oppositeColor cW = cB from by decide] at hc2
      · exact hc1

/-- Witness for C5: one attempt with no additional pieces and the constant
zero random stream places the kings on `A1` and `C1`. -/
theorem C5_generated_position_valid_witness :
    (computeTurn cW = cW ∨ computeTurn cW = cB) ∧
      generateStartingPosition cfg4 [] cW 1 false (fun _ _ => 0) =
        ([(sqA1, ⟨tK, cW⟩), (sqC1, ⟨tK, cB⟩)], cW) ∧
      ([(sqA1, ⟨tK, cW⟩), (sqC1, ⟨tK, cB⟩)] : Board) ≠ [] ∧
      isCheck cfg4 cW [(sqA1, ⟨tK, cW⟩), (sqC1, ⟨tK, cB⟩)] = false ∧
      isCheck cfg4 cB [(sqA1, ⟨tK, cW⟩), (sqC1, ⟨tK, cB⟩)] = false :=
  ⟨Or.inl (by decide), by decide, by decide,
    (C5_generated_position_valid cfg4 [] cW 1 (fun _ _ => 0) _ cW (Or.inl (by decide))
      (by decide) (by decide)).2.2.2.1,
    (C5_generated_position_valid cfg4 [] cW 1 (fun _ _ => 0) _ cW (Or.inl (by decide))
      (by decide) (by decide)).2.2.2.2.1⟩

theorem genLoop_none (cfg : Cfg) (pieces : List Piece) (turn : List Char)
    (allow : Bool) (G : Nat → Nat → Nat) :
    ∀ (count idx : Nat),
      (∀ i, idx ≤ i → i < idx + count →
        genAttempt cfg pieces turn allow (G i) = none) →
      genLoop cfg pieces turn allow G count idx = none := by
  intro count
  induction count with
  | zero => intro idx _; rfl
  | succ n ih =>
    intro idx h
    rw [genLoop_succ, h idx (Nat.le_refl idx) (by omega)]
    exact ih (idx + 1) fun i h1 h2 => h i (by omega) (by omega)

/-- Claim C9: if every attempt within the budget fails, the generator returns
the empty board together with the computed turn (a degraded value, not an
error). -/
theorem C9_exhausted_budget_empty_board (cfg : Cfg) (pieces : List Piece)
    (turnOpt : List Char) (maxAttempts : Nat) (allow : Bool) (G : Nat → Nat → Nat)
    (hfail : ∀ i, i < maxAttempts →
      genAttempt cfg pieces (computeTurn turnOpt) allow (G i) = none) :
    generateStartingPosition cfg pieces turnOpt maxAttempts allow G =
      ([], computeTurn turnOpt) := by
  simp only [generateStartingPosition]
  rw [genLoop_none cfg pieces (computeTurn turnOpt) allow G maxAttempts 0
    fun i _ h2 => hfail i (by omega)]

/-- Witness for C9: a single attempt that must fail because fifteen extra
rooks cannot fit on the fourteen squares left after the kings. -/
theorem C9_exhausted_budget_empty_board_witness :
    (∀ i, i < 1 → genAttempt cfg4 (List.replicate 15 ⟨tR, cW⟩) (computeTurn cW) false
      ((fun _ _ => 0) i) = none) ∧
      generateStartingPosition cfg4 (List.replicate 15 ⟨tR, cW⟩) cW 1 false
        (fun _ _ => 0) = ([], computeTurn cW) :=
  ⟨fun i _ =>
    (by decide :
      genAttempt cfg4 (List.replicate 15 ⟨tR, cW⟩) (computeTurn cW) false
        (fun _ => 0) = none),
    C9_exhausted_budget_empty_board cfg4 (List.replicate 15 ⟨tR, cW⟩) cW 1 false
      (fun _ _ => 0)
      fun i _ =>
        (by decide :
          genAttempt cfg4 (List.replicate 15 ⟨tR, cW⟩) (computeTurn cW) false
            (fun _ => 0) = none)⟩

/-- Witness for C8 at file index 2, rank 3 on the 4x4 board (square `C3`). -/
theorem C8_parse_toSquare_roundtrip_witness :
    (0 : Int) ≤ 2 ∧ (2 : Int) < (cfg4.files.length : Int) ∧ (3 : Int) ∈ cfg4.ranks ∧
      ∃ txt s, toSquare cfg4 2 3 = some txt ∧ parseSquare cfg4 txt = some s ∧
        (s.fileIndex : Int) = 2 ∧ s.rank = 3 :=
  ⟨by decide, by decide, by decide,
    C8_parse_toSquare_roundtrip cfg4 2 3 (Or.inl rfl) (by decide) (by decide) (by decide)⟩

end KidsChess
